import Mathlib

set_option maxHeartbeats 1000000

/-! Verification of the `bendctl load` command (`src/cli/src/cmds/loads/load.rs`):
the schema parser/renderer (`Schema::from_str`, `Schema::to_string`), the
precheck (`local_exec_precheck`, `table_exists`, `create_table_if_not_exists`)
and the streaming load body of `local_exec_match`. Rust strings are modelled
as lists of characters, the `BTreeMap` as a key-sorted association list, and
the external collaborators (filesystem, standard input, query endpoint) as an
explicit environment record. -/

/-- Rust strings are modelled as lists of characters. -/
abbrev Str := List Char

/-- Converts a Lean string literal to the character-list model. -/
def strLit (s : String) : Str := s.data

/-- Rust `str::split` with a single-character pattern: splits at every
occurrence of the separator, keeping empty pieces. -/
def splitChar (sep : Char) : Str → List Str
  | [] => [[]]
  | c :: rest =>
    match splitChar sep rest with
    | [] => [[]]
    | f :: fs => if c = sep then [] :: f :: fs else (c :: f) :: fs

/-- Itertools `join` with a string separator: empty for an empty sequence, a
single element unchanged, otherwise separator-interleaved concatenation. -/
def joinSepS (sep : Str) : List Str → Str
  | [] => []
  | [p] => p
  | p :: q :: ps => p ++ sep ++ joinSepS sep (q :: ps)

/-- Rust `str::trim`, with `char::is_whitespace` modelled on the ASCII
whitespace characters (space, tab, carriage return, newline). -/
def trimStr (s : Str) : Str :=
  ((s.dropWhile Char.isWhitespace).reverse.dropWhile Char.isWhitespace).reverse

/-- Rust `usize::from_str`: an optional leading plus sign followed by one or
more ASCII digits, rejecting anything else; values that do not fit a 64-bit
`usize` overflow and also fail. -/
def parseUsize (s : Str) : Option Nat :=
  let ds := match s with
    | '+' :: rest => rest
    | _ => s
  if ds.isEmpty then none
  else if ds.all Char.isDigit then
    let v := ds.foldl (fun acc c => acc * 10 + (c.toNat - 48)) 0
    if v < 2 ^ 64 then some v else none
  else none

/-- Lexicographic order on strings, matching the `Ord` instance that
`BTreeMap<String, String>` sorts its keys by. -/
def ltStr : Str → Str → Bool
  | [], [] => false
  | [], _ :: _ => true
  | _ :: _, [] => false
  | a :: as, b :: bs => if a < b then true else if b < a then false else ltStr as bs

/-- Insertion into the sorted association list that models
`BTreeMap<String, String>::insert`: keys stay in ascending order and an
insert with an existing key overwrites its value. -/
def btInsert (k v : Str) : List (Str × Str) → List (Str × Str)
  | [] => [(k, v)]
  | (k', v') :: rest =>
    if ltStr k k' then (k, v) :: (k', v') :: rest
    else if k = k' then (k, v) :: rest
    else (k', v') :: btInsert k v rest

/-- Key order between schema entries, the invariant `btInsert` maintains. -/
def ltKey (p q : Str × Str) : Prop := ltStr p.1 q.1 = true

/-- The `Schema` struct: a `BTreeMap<String, String>` from column name to
column type, modelled as an association list sorted by `ltStr` on keys. -/
structure Schema where
  schema : List (Str × Str)
  deriving DecidableEq

/-- The exact parse-failure message of `Schema::from_str`. -/
def schemaErr : Str :=
  strLit "not a valid schema, please input schema in format like a:uint8,b:uint64"

/-- The field loop of `Schema::from_str`: each comma-delimited field is split
at every colon, empty tokens are dropped, exactly two tokens must remain, and
the pair is inserted into the map. -/
def fromStrGo : List Str → List (Str × Str) → Except Str (List (Str × Str))
  | [], acc => .ok acc
  | field :: fields, acc =>
    match (splitChar ':' field).filter (fun e => !e.isEmpty) with
    | [a, b] => fromStrGo fields (btInsert a b acc)
    | _ => .error schemaErr

/-- `Schema::from_str`: remove every space, split on commas, and fold the
fields into the map. -/
def Schema.fromStr (s : Str) : Except Str Schema :=
  match fromStrGo (splitChar ',' (s.filter (fun c => c != ' '))) [] with
  | .ok m => .ok ⟨m⟩
  | .error e => .error e

/-- `Schema::to_string`: render each entry as `name type` in map (key) order
and join with a bare comma. -/
def Schema.toString (s : Schema) : Str :=
  joinSepS [','] (s.schema.map (fun p => p.1 ++ ' ' :: p.2))

/-- The association list obtained by inserting declared pairs left to right,
exactly as `Schema::from_str` folds its fields into the `BTreeMap`. -/
def sortPairs (pairs : List (Str × Str)) : List (Str × Str) :=
  pairs.foldl (fun acc p => btInsert p.1 p.2 acc) []

/-- Renders declared name/type pairs in the input syntax `n1:t1,n2:t2`
accepted by `Schema::from_str`. -/
def renderDecl (pairs : List (Str × Str)) : Str :=
  joinSepS [','] (pairs.map (fun p => p.1 ++ ':' :: p.2))

/-- Rayon `reduce_with`: `none` on an empty sequence, otherwise a fold of the
elements; the parallel reduction order is modelled as left-to-right source
order. -/
def reduceWith (f : Str → Str → Str) : List Str → Option Str
  | [] => none
  | x :: xs => some (xs.foldl f x)

/-- The batch-to-values transformation in `local_exec_match`: each line is
trimmed and wrapped in parentheses, then fragments whose trimmed text is
empty are filtered out (the filter runs on the already-wrapped fragment,
after the `format!` call), and the survivors are reduced with a comma-space
join. -/
def transformBatch (batch : List Str) : Option Str :=
  reduceWith (fun a b => a ++ strLit ", " ++ b)
    ((batch.map (fun e => '(' :: trimStr e ++ [')'])).filter
      (fun e => !(trimStr e).isEmpty))

/-- The insert statement built per batch:
`format!("INSERT INTO {} VALUES {}", table_format, values)`. -/
def mkInsert (tf values : Str) : Str :=
  strLit "INSERT INTO " ++ tf ++ strLit " VALUES " ++ values

/-- The per-batch failure diagnostic `cannot insert data into <table>,
error: <e>`, with the debug rendering of the error modelled as the error
string itself. -/
def diagMsg (table e : Str) : Str :=
  strLit "cannot insert data into " ++ table ++ strLit ", error: " ++ e

/-- The observable part of an `execute_query_json` result: the optional
column list and optional row data (metadata is never inspected). -/
structure QueryResult where
  col : Option (List Str)
  data : Option (List (List Str))
  deriving DecidableEq

/-- One iteration of the batch loop after the batch has been collected:
transform the batch, and if it produced a value list, dispatch the insert
statement, recording a diagnostic when the endpoint reports an error. -/
def batchStep (exec : Str → Except Str QueryResult) (tf table : Str)
    (batch : List Str) : List Str × List Str :=
  match transformBatch batch with
  | none => ([], [])
  | some values =>
    match exec (mkInsert tf values) with
    | .ok _ => ([mkInsert tf values], [])
    | .error e => ([mkInsert tf values], [diagMsg table e])

/-- The batch loop of `local_exec_match` over an explicit batch list: queries
and diagnostics accumulate in order, and a dispatch failure never stops the
loop. -/
def runBatchList (exec : Str → Except Str QueryResult) (tf table : Str) :
    List (List Str) → List Str × List Str
  | [] => ([], [])
  | b :: bs =>
    ((batchStep exec tf table b).1 ++ (runBatchList exec tf table bs).1,
     (batchStep exec tf table b).2 ++ (runBatchList exec tf table bs).2)

/-- Fuel-indexed batching: pull up to `size` lines per batch until the line
list is exhausted; the fuel (instantiated with the line count) bounds the
number of batches. -/
def batchesAux (size : Nat) : Nat → List Str → List (List Str)
  | 0, _ => []
  | _ + 1, [] => []
  | fuel + 1, l :: ls =>
    (l :: ls.take (size - 1)) :: batchesAux size fuel (ls.drop (size - 1))

/-- Splits the line stream into the batches collected by the loop in
`local_exec_match`: up to `size` lines each, in order, never empty. -/
def batches (size : Nat) (lines : List Str) : List (List Str) :=
  batchesAux size lines.length lines

/-- The environment collaborators of the load command: file existence on the
local filesystem, the standard-input lines, whether `Status` carries a
current profile, and the query endpoint (`execute_query_json`);
`Status::read` and `build_query_endpoint` are modelled as never failing. -/
structure Env where
  fileExists : Str → Bool
  stdinLines : List Str
  currentProfile : Bool
  exec : Str → Except Str QueryResult

/-- The clap arguments consumed by `local_exec_match`: the optional `load`
positional argument, the optional `--skip-head-lines` value, the required
`--table` value (always present, so modelled as a plain string), and the
optional `--schema` value. -/
structure MatchArgs where
  load : Option Str
  skipHeadLines : Option Str
  table : Str
  schemaArg : Option Str

/-- The result of running the command body: `ok` for `Ok(())`, `err` for an
`Err` returned to the caller, and `panicked` for a Rust panic (an `unwrap`
or `expect` on a failed result). -/
inductive Outcome where
  | ok
  | err (e : Str)
  | panicked
  deriving DecidableEq

/-- The side channel of the command: insert statements submitted by the batch
loop and messages written through `writer.write_err`. -/
structure Trace where
  queries : List Str
  diagnostics : List Str
  deriving DecidableEq

/-- The `table_exists` helper on the present-table case (`--table` is a
required argument, so `value_of("table")` is always `Some`): issue
`SHOW TABLES LIKE '<t>';` and fail unless a column list and a nonempty row
list come back. -/
def tableExists (env : Env) (t : Str) : Except Str Unit :=
  match env.exec (strLit "SHOW TABLES LIKE '" ++ t ++ strLit "';") with
  | .error e => .error e
  | .ok r =>
    if r.col.isNone || r.data.isNone || (r.data.getD []).isEmpty then
      .error (strLit "table " ++ t ++ strLit " not found")
    else .ok ()

/-- The `create_table_if_not_exists` helper: keep an existing table, else
issue the creation statement rendered from the schema. -/
def createTableIfNotExists (env : Env) (t : Str) (schema : Schema) :
    Except Str Unit :=
  match tableExists env t with
  | .ok _ => .ok ()
  | .error _ =>
    match env.exec (strLit "CREATE TABLE " ++ t ++ '(' :: Schema.toString schema
        ++ strLit ") Engine = Fuse;") with
    | .ok _ => .ok ()
    | .error e => .error e

/-- The `local_exec_precheck` function: require a current profile, then
either check that the table exists (no schema) or parse the schema and create
the table if needed; the profile error message's config directory is elided. -/
def localExecPrecheck (env : Env) (args : MatchArgs) : Except Str Unit :=
  if !env.currentProfile then
    .error (strLit "Query command error: cannot find local configs")
  else
    match args.schemaArg with
    | none => tableExists env args.table
    | some s =>
      match Schema.fromStr s with
      | .ok schema => createTableIfNotExists env args.table schema
      | .error _ => .error (args.table ++ strLit " schema is not in valid format")

/-- The table reference `format!("{} ({})", table, keys.join(", "))` used by
`local_exec_match` whenever a schema argument is supplied. -/
def schemaTableRef (table : Str) (sch : Schema) : Str :=
  table ++ strLit " (" ++ joinSepS (strLit ", ") (sch.schema.map Prod.fst) ++ [')']

/-- Runs the batch loop and packages its trace with the `Ok(())` outcome. -/
def runLoad (env : Env) (tf table : Str) (lines : List Str) : Outcome × Trace :=
  (.ok, ⟨(runBatchList env.exec tf table (batches 100000 lines)).1,
         (runBatchList env.exec tf table (batches 100000 lines)).2⟩)

/-- The `Ok` branch of the precheck match inside `local_exec_match`. The
`Some(load)` arm reads the whole file into memory when the path exists and
immediately discards the contents, dispatching nothing either way. The
`None` arm skips the head lines (returning early if standard input runs
out), resolves the table reference, and runs the batch loop over the
remaining standard-input lines. -/
def localExecBody (env : Env) (args : MatchArgs) : Outcome × Trace :=
  match args.load with
  | some val =>
    if env.fileExists val then (.ok, ⟨[], []⟩) else (.ok, ⟨[], []⟩)
  | none =>
    match parseUsize (args.skipHeadLines.getD (strLit "0")) with
    | none => (.panicked, ⟨[], []⟩)
    | some n =>
      if env.stdinLines.length < n then (.ok, ⟨[], []⟩)
      else
        match args.schemaArg with
        | some s =>
          match Schema.fromStr s with
          | .error _ => (.panicked, ⟨[], []⟩)
          | .ok sch =>
            runLoad env (schemaTableRef args.table sch) args.table
              (env.stdinLines.drop n)
        | none =>
          runLoad env args.table args.table (env.stdinLines.drop n)

/-- The whole `local_exec_match`: a failing precheck is written as a
diagnostic and the function still returns `Ok(())`; the debug rendering of
the error in the diagnostic is modelled as the error string itself. -/
def localExecMatch (env : Env) (args : MatchArgs) : Outcome × Trace :=
  match localExecPrecheck env args with
  | .ok _ => localExecBody env args
  | .error e =>
    (.ok, ⟨[], [strLit "Query command precheck failed, error " ++ e]⟩)

/-- Query endpoint stub whose every statement succeeds with a nonempty
result set, so table-existence prechecks pass. -/
def execOk : Str → Except Str QueryResult :=
  fun _ => .ok ⟨some [strLit "name"], some [[strLit "t"]]⟩

/-- Declared schema pairs used to exercise the round-trip theorems. -/
def pairsC1 : List (Str × Str) :=
  [(strLit "b", strLit "u8"), (strLit "a", strLit "u64")]

/-- Environment with a single blank standard-input line. -/
def envC2 : Env := ⟨fun _ => false, [strLit ""], true, execOk⟩

/-- Arguments for a plain standard-input load into table `t`. -/
def argsC2 : MatchArgs := ⟨none, none, strLit "t", none⟩

/-- Environment in which every local path exists. -/
def envC3File : Env := ⟨fun _ => true, [], true, execOk⟩

/-- Arguments naming an existing local file as the load source. -/
def argsC3File : MatchArgs := ⟨some (strLit "foo.csv"), none, strLit "t", none⟩

/-- Environment whose standard input carries the single line `1,a`. -/
def envC3Stdin : Env := ⟨fun _ => false, [strLit "1,a"], true, execOk⟩

/-- Arguments for the standard-input load compared against the file load. -/
def argsC3Stdin : MatchArgs := ⟨none, none, strLit "t", none⟩

/-- Environment whose standard input carries the single line `1`. -/
def envC4 : Env := ⟨fun _ => false, [strLit "1"], true, execOk⟩

/-- Arguments supplying schema `a:u8` for a table that already exists. -/
def argsC4 : MatchArgs := ⟨none, none, strLit "t", some (strLit "a:u8")⟩

/-- Environment whose standard input carries the single line `1,a`. -/
def envC5 : Env := ⟨fun _ => false, [strLit "1,a"], true, execOk⟩

/-- Arguments for a plain standard-input load into table `t`. -/
def argsC5 : MatchArgs := ⟨none, none, strLit "t", none⟩

/-- Environment in which no local path exists. -/
def envC6 : Env := ⟨fun _ => false, [], true, execOk⟩

/-- Arguments naming a nonexistent local file as the load source. -/
def argsC6 : MatchArgs := ⟨some (strLit "missing.csv"), none, strLit "t", none⟩

/-- Environment without a current profile, so the precheck fails. -/
def envC7 : Env := ⟨fun _ => false, [], false, execOk⟩

/-- Arguments for the load whose precheck fails. -/
def argsC7 : MatchArgs := ⟨none, none, strLit "t", none⟩

/-- Query endpoint stub that fails exactly on the insert statement of the
batch holding line `2` and succeeds on everything else. -/
def execC8 : Str → Except Str QueryResult :=
  fun q =>
    if q = mkInsert (strLit "t") (strLit "(2)") then .error (strLit "boom")
    else .ok ⟨some [strLit "name"], some [[strLit "t"]]⟩

/-- Environment wired to the endpoint that fails on the middle batch. -/
def envC8 : Env := ⟨fun _ => false, [], true, execC8⟩

/-- Arguments for the load with a failing middle batch. -/
def argsC8 : MatchArgs := ⟨none, none, strLit "t", none⟩

/-- Environment whose standard input holds one line, fewer than the skip. -/
def envC9 : Env := ⟨fun _ => false, [strLit "a"], true, execOk⟩

/-- Arguments skipping two head lines of a one-line input. -/
def argsC9 : MatchArgs := ⟨none, some (strLit "2"), strLit "t", none⟩

/-- Environment for the malformed skip-count invocation. -/
def envC10 : Env := ⟨fun _ => false, [strLit "1"], true, execOk⟩

/-- Arguments whose `--skip-head-lines` value is not an integer. -/
def argsC10 : MatchArgs := ⟨none, some (strLit "abc"), strLit "t", none⟩

-- Sanity checks of the embedding on concrete inputs.
example : Schema.fromStr (strLit "a:uint8, b:uint64") =
    .ok ⟨[(strLit "a", strLit "uint8"), (strLit "b", strLit "uint64")]⟩ := rfl

example : Schema.toString ⟨[(strLit "a", strLit "uint8"), (strLit "b", strLit "uint64")]⟩ =
    strLit "a uint8,b uint64" := rfl

example : Schema.fromStr (strLit "a") = .error schemaErr := rfl

example : transformBatch [strLit " 1,a ", strLit "2,b"] = some (strLit "(1,a), (2,b)") := rfl

example : transformBatch [strLit "  "] = some (strLit "()") := rfl

example : parseUsize (strLit "10") = some 10 := rfl

example : parseUsize (strLit "abc") = none := rfl

example : batches 2 [strLit "1", strLit "2", strLit "3"] =
    [[strLit "1", strLit "2"], [strLit "3"]] := rfl

/-! Structural lemmas about the character-splitting and joining helpers. -/

theorem splitChar_ne_nil (sep : Char) (l : Str) : splitChar sep l ≠ [] := by
  cases l with
  | nil => simp [splitChar]
  | cons c rest =>
    simp only [splitChar]
    cases h : splitChar sep rest with
    | nil => simp
    | cons f fs => by_cases hc : c = sep <;> simp [hc]

theorem splitChar_not_mem (sep : Char) (l : Str) (h : sep ∉ l) :
    splitChar sep l = [l] := by
  induction l with
  | nil => rfl
  | cons c rest ih =>
    rw [List.mem_cons, not_or] at h
    simp only [splitChar]
    rw [ih h.2]
    have hc : ¬ c = sep := fun e => h.1 e.symm
    simp [hc]

theorem splitChar_append (sep : Char) (a b : Str) (h : sep ∉ a) :
    splitChar sep (a ++ sep :: b) = a :: splitChar sep b := by
  induction a with
  | nil =>
    simp only [List.nil_append, splitChar]
    cases hs : splitChar sep b with
    | nil => exact absurd hs (splitChar_ne_nil sep b)
    | cons f fs => simp
  | cons c a' ih =>
    rw [List.mem_cons, not_or] at h
    simp only [List.cons_append, splitChar]
    simp only [List.append_eq]
    rw [ih h.2]
    have hc : ¬ c = sep := fun e => h.1 e.symm
    simp [hc]

theorem mem_joinSepS (sep : Str) (parts : List Str) (c : Char)
    (h : c ∈ joinSepS sep parts) : c ∈ sep ∨ ∃ p ∈ parts, c ∈ p := by
  induction parts with
  | nil => simp [joinSepS] at h
  | cons p ps ih =>
    cases ps with
    | nil => exact Or.inr ⟨p, by simp, by simpa [joinSepS] using h⟩
    | cons q ps' =>
      simp only [joinSepS, List.mem_append] at h
      rcases h with (h | h) | h
      · exact Or.inr ⟨p, by simp, h⟩
      · exact Or.inl h
      · rcases ih h with h | ⟨r, hr, hcr⟩
        · exact Or.inl h
        · exact Or.inr ⟨r, by simp [hr], hcr⟩

theorem splitChar_joinSepS (sep : Char) (parts : List Str) (hne : parts ≠ [])
    (h : ∀ p ∈ parts, sep ∉ p) :
    splitChar sep (joinSepS [sep] parts) = parts := by
  induction parts with
  | nil => exact absurd rfl hne
  | cons p ps ih =>
    cases ps with
    | nil =>
      simp only [joinSepS]
      exact splitChar_not_mem sep p (h p (by simp))
    | cons q ps' =>
      simp only [joinSepS]
      have he : p ++ [sep] ++ joinSepS [sep] (q :: ps') =
          p ++ sep :: joinSepS [sep] (q :: ps') := by simp
      rw [he, splitChar_append sep p _ (h p (by simp)),
        ih (by simp) (fun r hr => h r (List.mem_cons_of_mem p hr))]

theorem filter_bne_space (l : Str) (h : ∀ c ∈ l, ¬ c = ' ') :
    l.filter (fun c => c != ' ') = l := by
  induction l with
  | nil => rfl
  | cons c rest ih =>
    have hc : ¬ c = ' ' := h c (by simp)
    simp only [List.filter_cons]
    rw [if_pos (by simpa using hc), ih (fun d hd => h d (List.mem_cons_of_mem c hd))]

/-! Lemmas about the sorted association list modelling the `BTreeMap`. -/

theorem ltStr_trans : ∀ a b c : Str,
    ltStr a b = true → ltStr b c = true → ltStr a c = true := by
  intro a
  induction a with
  | nil =>
    intro b c h1 h2
    cases b with
    | nil => simp [ltStr] at h1
    | cons y bs =>
      cases c with
      | nil => simp [ltStr] at h2
      | cons z cs => simp [ltStr]
  | cons x as ih =>
    intro b c h1 h2
    cases b with
    | nil => simp [ltStr] at h1
    | cons y bs =>
      cases c with
      | nil => simp [ltStr] at h2
      | cons z cs =>
        simp only [ltStr] at h1 h2 ⊢
        by_cases hxy : x < y
        · by_cases hyz : y < z
          · rw [if_pos (lt_trans hxy hyz)]
          · by_cases hzy : z < y
            · rw [if_neg hyz, if_pos hzy] at h2
              exact absurd h2 (by simp)
            · have hyz2 : y = z := le_antisymm (not_lt.mp hzy) (not_lt.mp hyz)
              subst hyz2
              rw [if_pos hxy]
        · by_cases hyx : y < x
          · rw [if_neg hxy, if_pos hyx] at h1
            exact absurd h1 (by simp)
          · have hxy2 : x = y := le_antisymm (not_lt.mp hyx) (not_lt.mp hxy)
            subst hxy2
            rw [if_neg hxy, if_neg hxy] at h1
            by_cases hxz : x < z
            · rw [if_pos hxz]
            · by_cases hzx : z < x
              · rw [if_neg hxz, if_pos hzx] at h2
                exact absurd h2 (by simp)
              · have hxz2 : x = z := le_antisymm (not_lt.mp hzx) (not_lt.mp hxz)
                subst hxz2
                rw [if_neg hxz, if_neg hxz] at h2 ⊢
                exact ih bs cs h1 h2

theorem ltStr_total : ∀ a b : Str, ltStr a b = false → a ≠ b → ltStr b a = true := by
  intro a
  induction a with
  | nil =>
    intro b h1 h2
    cases b with
    | nil => exact absurd rfl h2
    | cons y bs => simp [ltStr] at h1
  | cons x as ih =>
    intro b h1 h2
    cases b with
    | nil => simp [ltStr]
    | cons y bs =>
      simp only [ltStr] at h1 ⊢
      by_cases hxy : x < y
      · rw [if_pos hxy] at h1
        exact absurd h1 (by simp)
      · by_cases hyx : y < x
        · rw [if_pos hyx]
        · have hxy2 : x = y := le_antisymm (not_lt.mp hyx) (not_lt.mp hxy)
          subst hxy2
          rw [if_neg hxy, if_neg hxy] at h1
          rw [if_neg hxy, if_neg hxy]
          exact ih bs h1 (fun e => h2 (by rw [e]))

theorem mem_btInsert (k v : Str) (l : List (Str × Str)) (x : Str × Str)
    (h : x ∈ btInsert k v l) : x = (k, v) ∨ x ∈ l := by
  induction l with
  | nil => simpa [btInsert] using h
  | cons p rest ih =>
    obtain ⟨k', v'⟩ := p
    simp only [btInsert] at h
    by_cases h1 : ltStr k k' = true
    · simp only [if_pos h1] at h
      rcases List.mem_cons.mp h with h | h
      · exact Or.inl h
      · exact Or.inr h
    · simp only [if_neg h1] at h
      by_cases h2 : k = k'
      · simp only [if_pos h2] at h
        rcases List.mem_cons.mp h with h | h
        · exact Or.inl h
        · exact Or.inr (List.mem_cons_of_mem _ h)
      · simp only [if_neg h2] at h
        rcases List.mem_cons.mp h with h | h
        · exact Or.inr (by simp [h])
        · rcases ih h with h | h
          · exact Or.inl h
          · exact Or.inr (List.mem_cons_of_mem _ h)

theorem mem_map_fst_btInsert (k v x : Str) (l : List (Str × Str))
    (h : x ∈ (btInsert k v l).map Prod.fst) : x = k ∨ x ∈ l.map Prod.fst := by
  simp only [List.mem_map] at h ⊢
  obtain ⟨p, hp, he⟩ := h
  rcases mem_btInsert k v l p hp with h' | h'
  · left; rw [← he, h']
  · right; exact ⟨p, h', he⟩

theorem btInsert_perm (k v : Str) (l : List (Str × Str))
    (h : k ∉ l.map Prod.fst) : (btInsert k v l).Perm ((k, v) :: l) := by
  induction l with
  | nil => simp [btInsert]
  | cons p rest ih =>
    obtain ⟨k', v'⟩ := p
    simp only [List.map_cons, List.mem_cons, not_or] at h
    simp only [btInsert]
    by_cases h1 : ltStr k k' = true
    · rw [if_pos h1]
    · rw [if_neg h1, if_neg h.1]
      exact ((ih h.2).cons (k', v')).trans (List.Perm.swap (k, v) (k', v') rest)

theorem btInsert_pairwise (k v : Str) (l : List (Str × Str))
    (hs : l.Pairwise ltKey) (hm : k ∉ l.map Prod.fst) :
    (btInsert k v l).Pairwise ltKey := by
  induction l with
  | nil => simp [btInsert, ltKey]
  | cons p rest ih =>
    obtain ⟨k', v'⟩ := p
    rw [List.pairwise_cons] at hs
    simp only [List.map_cons, List.mem_cons, not_or] at hm
    simp only [btInsert]
    by_cases h1 : ltStr k k' = true
    · rw [if_pos h1]
      refine List.Pairwise.cons ?_ (List.Pairwise.cons hs.1 hs.2)
      intro q hq
      rcases List.mem_cons.mp hq with h' | h'
      · subst h'
        exact h1
      · exact ltStr_trans k k' q.1 h1 (hs.1 q h')
    · rw [if_neg h1, if_neg hm.1]
      have h1f : ltStr k k' = false := by
        revert h1; cases ltStr k k' <;> simp
      refine List.Pairwise.cons ?_ (ih hs.2 hm.2)
      intro q hq
      rcases mem_btInsert k v rest q hq with h' | h'
      · subst h'
        exact ltStr_total k k' h1f hm.1
      · exact hs.1 q h'

theorem foldl_btInsert_perm (pairs : List (Str × Str)) :
    ∀ acc : List (Str × Str), (pairs.map Prod.fst).Nodup →
    (∀ p ∈ pairs, p.1 ∉ acc.map Prod.fst) →
    (pairs.foldl (fun a p => btInsert p.1 p.2 a) acc).Perm (pairs ++ acc) := by
  induction pairs with
  | nil => intro acc _ _; simp
  | cons p ps ih =>
    intro acc hnd hdisj
    simp only [List.foldl_cons, List.cons_append]
    simp only [List.map_cons, List.nodup_cons] at hnd
    have hp : p.1 ∉ acc.map Prod.fst := hdisj p (by simp)
    have hdisj' : ∀ q ∈ ps, q.1 ∉ (btInsert p.1 p.2 acc).map Prod.fst := by
      intro q hq hmem
      rcases mem_map_fst_btInsert p.1 p.2 q.1 acc hmem with h' | h'
      · exact hnd.1 (h' ▸ List.mem_map_of_mem Prod.fst hq)
      · exact hdisj q (List.mem_cons_of_mem p hq) h'
    refine (ih (btInsert p.1 p.2 acc) hnd.2 hdisj').trans ?_
    refine (List.Perm.append_left ps (btInsert_perm p.1 p.2 acc hp)).trans ?_
    exact List.perm_middle

theorem foldl_btInsert_pairwise (pairs : List (Str × Str)) :
    ∀ acc : List (Str × Str), acc.Pairwise ltKey → (pairs.map Prod.fst).Nodup →
    (∀ p ∈ pairs, p.1 ∉ acc.map Prod.fst) →
    (pairs.foldl (fun a p => btInsert p.1 p.2 a) acc).Pairwise ltKey := by
  induction pairs with
  | nil => intro acc hacc _ _; simpa using hacc
  | cons p ps ih =>
    intro acc hacc hnd hdisj
    simp only [List.foldl_cons]
    simp only [List.map_cons, List.nodup_cons] at hnd
    refine ih (btInsert p.1 p.2 acc)
      (btInsert_pairwise p.1 p.2 acc hacc (hdisj p (by simp))) hnd.2 ?_
    intro q hq hmem
    rcases mem_map_fst_btInsert p.1 p.2 q.1 acc hmem with h' | h'
    · exact hnd.1 (h' ▸ List.mem_map_of_mem Prod.fst hq)
    · exact hdisj q (List.mem_cons_of_mem p hq) h'

theorem sortPairs_perm (pairs : List (Str × Str))
    (hnd : (pairs.map Prod.fst).Nodup) : (sortPairs pairs).Perm pairs := by
  have := foldl_btInsert_perm pairs [] hnd (by simp)
  simpa [sortPairs] using this

theorem sortPairs_pairwise (pairs : List (Str × Str))
    (hnd : (pairs.map Prod.fst).Nodup) : (sortPairs pairs).Pairwise ltKey :=
  foldl_btInsert_pairwise pairs [] (by simp) hnd (by simp)

/-! Parsing a rendered declaration string. -/

theorem fromStrGo_good (pairs : List (Str × Str)) :
    ∀ acc : List (Str × Str),
    (∀ p ∈ pairs, p.1 ≠ [] ∧ p.2 ≠ [] ∧ ':' ∉ p.1 ∧ ':' ∉ p.2) →
    fromStrGo (pairs.map (fun p => p.1 ++ ':' :: p.2)) acc =
      .ok (pairs.foldl (fun a p => btInsert p.1 p.2 a) acc) := by
  induction pairs with
  | nil => intro acc _; rfl
  | cons p ps ih =>
    intro acc h
    obtain ⟨h1, h2, h3, h4⟩ := h p (by simp)
    simp only [List.map_cons, fromStrGo, List.foldl_cons]
    rw [splitChar_append ':' p.1 p.2 h3, splitChar_not_mem ':' p.2 h4]
    have hf : List.filter (fun e => !e.isEmpty) [p.1, p.2] = [p.1, p.2] := by
      simp [List.filter_cons, h1, h2]
    rw [hf]
    exact ih _ (fun q hq => h q (by simp [hq]))

theorem fromStr_renderDecl (pairs : List (Str × Str)) (hne : pairs ≠ [])
    (hgood : ∀ p ∈ pairs, p.1 ≠ [] ∧ p.2 ≠ [] ∧
      ∀ c ∈ p.1 ++ p.2, c ≠ ',' ∧ c ≠ ':' ∧ c ≠ ' ') :
    Schema.fromStr (renderDecl pairs) = .ok ⟨sortPairs pairs⟩ := by
  have hnospace : ∀ c ∈ renderDecl pairs, ¬ c = ' ' := by
    intro c hc
    replace hc : c ∈ joinSepS [','] (pairs.map (fun p => p.1 ++ ':' :: p.2)) := hc
    rcases mem_joinSepS [','] (pairs.map (fun p => p.1 ++ ':' :: p.2)) c hc with
      h | ⟨part, hp, hcp⟩
    · have hcc : c = ',' := by simpa using h
      subst hcc; decide
    · obtain ⟨p, hpp, rfl⟩ := List.mem_map.mp hp
      rcases List.mem_append.mp hcp with h' | h'
      · exact ((hgood p hpp).2.2 c (List.mem_append_left _ h')).2.2
      · rcases List.mem_cons.mp h' with h'' | h''
        · subst h''; decide
        · exact ((hgood p hpp).2.2 c (List.mem_append_right _ h'')).2.2
  have hfilter : (renderDecl pairs).filter (fun c => c != ' ') = renderDecl pairs :=
    filter_bne_space _ hnospace
  have hsplit : splitChar ',' (renderDecl pairs) =
      pairs.map (fun p => p.1 ++ ':' :: p.2) := by
    refine splitChar_joinSepS ',' _ (by simpa using hne) ?_
    intro part hp
    obtain ⟨p, hpp, rfl⟩ := List.mem_map.mp hp
    intro hmem
    rcases List.mem_append.mp hmem with h' | h'
    · exact ((hgood p hpp).2.2 ',' (List.mem_append_left _ h')).1 rfl
    · rcases List.mem_cons.mp h' with h'' | h''
      · exact absurd h'' (by decide)
      · exact ((hgood p hpp).2.2 ',' (List.mem_append_right _ h'')).1 rfl
  have hgood' : ∀ p ∈ pairs, p.1 ≠ [] ∧ p.2 ≠ [] ∧ ':' ∉ p.1 ∧ ':' ∉ p.2 := by
    intro p hp
    refine ⟨(hgood p hp).1, (hgood p hp).2.1, ?_, ?_⟩
    · intro hm
      exact ((hgood p hp).2.2 ':' (List.mem_append_left _ hm)).2.1 rfl
    · intro hm
      exact ((hgood p hp).2.2 ':' (List.mem_append_right _ hm)).2.1 rfl
  unfold Schema.fromStr
  rw [hfilter, hsplit, fromStrGo_good pairs [] hgood']
  rfl

/-! Lemmas about batching and the batch loop. -/

theorem flatten_batchesAux (size : Nat) :
    ∀ (fuel : Nat) (l : List Str), l.length ≤ fuel →
    (batchesAux size fuel l).flatten = l := by
  intro fuel
  induction fuel with
  | zero =>
    intro l hl
    have hnil : l = [] := List.length_eq_zero.mp (Nat.le_zero.mp hl)
    subst hnil; rfl
  | succ fuel ih =>
    intro l hl
    cases l with
    | nil => rfl
    | cons x xs =>
      have hlen : (xs.drop (size - 1)).length ≤ fuel := by
        rw [List.length_drop]
        simp only [List.length_cons] at hl
        omega
      simp only [batchesAux, List.flatten_cons]
      rw [ih (xs.drop (size - 1)) hlen, List.cons_append, List.take_append_drop]

theorem flatten_batches (size : Nat) (l : List Str) : (batches size l).flatten = l :=
  flatten_batchesAux size l.length l (le_refl _)

theorem runBatchList_append (exec : Str → Except Str QueryResult) (tf table : Str)
    (xs ys : List (List Str)) :
    runBatchList exec tf table (xs ++ ys) =
      ((runBatchList exec tf table xs).1 ++ (runBatchList exec tf table ys).1,
       (runBatchList exec tf table xs).2 ++ (runBatchList exec tf table ys).2) := by
  induction xs with
  | nil => simp [runBatchList]
  | cons b bs ih => simp [runBatchList, ih]

theorem batchStep_queries (exec : Str → Except Str QueryResult) (tf table : Str)
    (b : List Str) :
    (batchStep exec tf table b).1 = [] ∨
    ∃ v, transformBatch b = some v ∧
      (batchStep exec tf table b).1 = [mkInsert tf v] := by
  cases hv : transformBatch b with
  | none =>
    left
    simp only [batchStep, hv]
  | some v =>
    right
    refine ⟨v, rfl, ?_⟩
    simp only [batchStep, hv]
    cases exec (mkInsert tf v) <;> rfl

theorem runBatchList_queries_shape (exec : Str → Except Str QueryResult)
    (tf table : Str) (bl : List (List Str)) :
    ∀ q ∈ (runBatchList exec tf table bl).1,
      ∃ b v, b ∈ bl ∧ transformBatch b = some v ∧ q = mkInsert tf v := by
  induction bl with
  | nil => intro q hq; simp [runBatchList] at hq
  | cons b bs ih =>
    intro q hq
    simp only [runBatchList, List.mem_append] at hq
    rcases hq with hq | hq
    · rcases batchStep_queries exec tf table b with h0 | ⟨v, hv, hbq⟩
      · rw [h0] at hq; simp at hq
      · rw [hbq] at hq
        have hqe : q = mkInsert tf v := by simpa using hq
        exact ⟨b, v, by simp, hv, hqe⟩
    · obtain ⟨b', v, hb, hv, he⟩ := ih q hq
      exact ⟨b', v, List.mem_cons_of_mem b hb, hv, he⟩

/-! Claim theorems. -/

/-- C1 (counterexample): the schema string `b:u8,a:u64` parses, but
rendering gives `a u64,b u8` — the pairs come back in ascending name order,
not in the original declaration order, which would read `b u8,a u64`. -/
theorem c1_roundtrip_counterexample :
    Schema.fromStr (strLit "b:u8,a:u64") =
      .ok ⟨[(strLit "a", strLit "u64"), (strLit "b", strLit "u8")]⟩ ∧
    Schema.toString ⟨[(strLit "a", strLit "u64"), (strLit "b", strLit "u8")]⟩ =
      strLit "a u64,b u8" ∧
    strLit "a u64,b u8" ≠ strLit "b u8,a u64" :=
  ⟨rfl, rfl, by decide⟩

/-- C1 (amended): for every valid schema string `n1:t1,n2:t2,…` with
distinct, nonempty names and types free of the separator characters,
`Schema::from_str` succeeds and holds exactly the declared name/type pairs,
but in ascending lexicographic name order (the `BTreeMap` key order) rather
than declaration order, and `Schema::to_string` renders those sorted pairs
as comma-joined `name type` entries. -/
theorem c1_roundtrip_sorted (pairs : List (Str × Str)) (hne : pairs ≠ [])
    (hgood : ∀ p ∈ pairs, p.1 ≠ [] ∧ p.2 ≠ [] ∧
      ∀ c ∈ p.1 ++ p.2, c ≠ ',' ∧ c ≠ ':' ∧ c ≠ ' ')
    (hnd : (pairs.map Prod.fst).Nodup) :
    Schema.fromStr (renderDecl pairs) = .ok ⟨sortPairs pairs⟩ ∧
    (sortPairs pairs).Perm pairs ∧
    (sortPairs pairs).Pairwise ltKey ∧
    Schema.toString ⟨sortPairs pairs⟩ =
      joinSepS [','] ((sortPairs pairs).map (fun p => p.1 ++ ' ' :: p.2)) :=
  ⟨fromStr_renderDecl pairs hne hgood, sortPairs_perm pairs hnd,
   sortPairs_pairwise pairs hnd, rfl⟩

/-- Witness for the amended C1 at the declared pairs of `b:u8,a:u64`. -/
theorem c1_roundtrip_sorted_witness :
    (pairsC1 ≠ [] ∧
     (∀ p ∈ pairsC1, p.1 ≠ [] ∧ p.2 ≠ [] ∧
       ∀ c ∈ p.1 ++ p.2, c ≠ ',' ∧ c ≠ ':' ∧ c ≠ ' ') ∧
     (pairsC1.map Prod.fst).Nodup) ∧
    (Schema.fromStr (renderDecl pairsC1) = .ok ⟨sortPairs pairsC1⟩ ∧
     (sortPairs pairsC1).Perm pairsC1 ∧
     (sortPairs pairsC1).Pairwise ltKey ∧
     Schema.toString ⟨sortPairs pairsC1⟩ =
       joinSepS [','] ((sortPairs pairsC1).map (fun p => p.1 ++ ' ' :: p.2))) :=
  ⟨⟨by decide, by decide, by decide⟩,
   c1_roundtrip_sorted pairsC1 (by decide) (by decide) (by decide)⟩

/-- C2 (code evaluation): a batch consisting of one empty line is mapped to
the fragment `()` — the emptiness filter runs after the parentheses are
added, so it never drops anything — and an insert statement is dispatched
for the all-blank batch. -/
theorem c2_blank_line_dispatched :
    localExecBody envC2 argsC2 =
      (.ok, ⟨[strLit "INSERT INTO t VALUES ()"], []⟩) := rfl

/-- C3 (code evaluation): with an existing local file as source the body
dispatches nothing at all (the file is read whole and the contents
discarded), while a standard-input source with the same content `1,a`
dispatches one insert statement. -/
theorem c3_file_source_inert :
    localExecBody envC3File argsC3File = (.ok, ⟨[], []⟩) ∧
    localExecBody envC3Stdin argsC3Stdin =
      (.ok, ⟨[strLit "INSERT INTO t VALUES (1,a)"], []⟩) :=
  ⟨rfl, rfl⟩

/-- C4 (counterexample): schema `a:u8` is supplied and the table exists
remotely, yet the dispatched statement uses the reference `t (a)` — the
column list is appended — instead of the bare table name. -/
theorem c4_schema_not_ignored_counterexample :
    (localExecMatch envC4 argsC4).2.queries =
      [strLit "INSERT INTO t (a) VALUES (1)"] ∧
    strLit "INSERT INTO t (a) VALUES (1)" ≠ strLit "INSERT INTO t VALUES (1)" :=
  ⟨rfl, by decide⟩

/-- C4 (amended): whenever a schema argument is supplied and parses, every
insert statement dispatched by the load uses the table reference
`<table> (<columns>)` with the parenthesized column list in sorted name
order, whether or not the table already existed; the bare name is used only
when no schema is supplied. -/
theorem c4_schema_always_adds_columns (env : Env) (args : MatchArgs)
    (s : Str) (sch : Schema) (h1 : args.load = none)
    (h2 : args.schemaArg = some s) (h3 : Schema.fromStr s = .ok sch) :
    ∀ q ∈ (localExecMatch env args).2.queries,
      ∃ v, q = mkInsert (schemaTableRef args.table sch) v := by
  intro q hq
  unfold localExecMatch at hq
  cases hp : localExecPrecheck env args with
  | error e => rw [hp] at hq; simp at hq
  | ok u =>
    rw [hp] at hq
    simp only [localExecBody, h1] at hq
    cases hn : parseUsize (args.skipHeadLines.getD (strLit "0")) with
    | none => rw [hn] at hq; simp at hq
    | some n =>
      rw [hn] at hq
      simp only [] at hq
      by_cases hlen : env.stdinLines.length < n
      · rw [if_pos hlen] at hq
        simp at hq
      · rw [if_neg hlen] at hq
        simp only [h2, h3, runLoad] at hq
        obtain ⟨b, v, _, _, hqe⟩ :=
          runBatchList_queries_shape env.exec (schemaTableRef args.table sch)
            args.table (batches 100000 (env.stdinLines.drop n)) q hq
        exact ⟨v, hqe⟩

/-- Witness for the amended C4: the concrete load with schema `a:u8`
dispatches a statement carrying the `t (a)` reference. -/
theorem c4_schema_always_adds_columns_witness :
    Schema.fromStr (strLit "a:u8") = .ok ⟨[(strLit "a", strLit "u8")]⟩ ∧
    (∃ v, strLit "INSERT INTO t (a) VALUES (1)" =
      mkInsert (schemaTableRef (strLit "t") ⟨[(strLit "a", strLit "u8")]⟩) v) :=
  ⟨rfl, c4_schema_always_adds_columns envC4 argsC4 (strLit "a:u8")
    ⟨[(strLit "a", strLit "u8")]⟩ rfl rfl rfl
    (strLit "INSERT INTO t (a) VALUES (1)") (by decide)⟩

/-- C5 (counterexample): the dispatched statement for line `1,a` is
`INSERT INTO t VALUES (1,a)` with no terminating semicolon, so it differs
from the shape `INSERT INTO t VALUES (1,a);` the claim requires. -/
theorem c5_no_semicolon_counterexample :
    (localExecBody envC5 argsC5).2.queries =
      [strLit "INSERT INTO t VALUES (1,a)"] ∧
    strLit "INSERT INTO t VALUES (1,a)" ≠ strLit "INSERT INTO t VALUES (1,a);" :=
  ⟨rfl, by decide⟩

/-- C5 (amended): every statement the batch loop dispatches is exactly
`INSERT INTO <table_ref> VALUES <value_list>` — the literal keywords, the
table reference, and the reduced value list of some batch — with no
terminating semicolon. -/
theorem c5_insert_statement_shape (exec : Str → Except Str QueryResult)
    (tf table : Str) (bl : List (List Str)) (q : Str)
    (hq : q ∈ (runBatchList exec tf table bl).1) :
    ∃ b v, b ∈ bl ∧ transformBatch b = some v ∧ q = mkInsert tf v :=
  runBatchList_queries_shape exec tf table bl q hq

/-- Witness for the amended C5 at a one-batch load of the line `1,a`. -/
theorem c5_insert_statement_shape_witness :
    strLit "INSERT INTO t VALUES (1,a)" ∈
      (runBatchList execOk (strLit "t") (strLit "t") [[strLit "1,a"]]).1 ∧
    (∃ b v, b ∈ [[strLit "1,a"]] ∧ transformBatch b = some v ∧
      strLit "INSERT INTO t VALUES (1,a)" = mkInsert (strLit "t") v) :=
  ⟨by decide, c5_insert_statement_shape execOk (strLit "t") (strLit "t")
    [[strLit "1,a"]] (strLit "INSERT INTO t VALUES (1,a)") (by decide)⟩

/-- C6 (counterexample): with a `load` argument naming a nonexistent path,
the body dispatches nothing and returns `Ok` — no `SourceError`, no failure
of any kind. -/
theorem c6_missing_file_counterexample :
    (localExecBody envC6 argsC6).1 = .ok ∧
    (localExecBody envC6 argsC6).2.queries = [] :=
  ⟨rfl, rfl⟩

/-- C6 (amended): a load whose local source path does not exist dispatches
no insert statement and completes silently with `Ok` instead of failing
with a `SourceError`. -/
theorem c6_missing_file_silent_noop (env : Env) (args : MatchArgs) (val : Str)
    (h1 : args.load = some val) (h2 : env.fileExists val = false) :
    localExecBody env args = (.ok, ⟨[], []⟩) := by
  simp only [localExecBody, h1, h2]
  simp

/-- Witness for the amended C6 at the concrete missing path. -/
theorem c6_missing_file_silent_noop_witness :
    envC6.fileExists (strLit "missing.csv") = false ∧
    localExecBody envC6 argsC6 = (.ok, ⟨[], []⟩) :=
  ⟨rfl, c6_missing_file_silent_noop envC6 argsC6 (strLit "missing.csv") rfl rfl⟩

/-- C7 (counterexample): the precheck fails (no current profile), yet
`local_exec_match` returns `Ok` with the failure demoted to a diagnostic,
instead of returning the error as the load's terminal result. -/
theorem c7_precheck_error_swallowed :
    (localExecMatch envC7 argsC7).1 = .ok ∧
    (localExecMatch envC7 argsC7).2.diagnostics =
      [strLit "Query command precheck failed, error " ++
        strLit "Query command error: cannot find local configs"] :=
  ⟨rfl, rfl⟩

/-- C7 (amended): every setup failure surfaced by the precheck (profile
missing, schema parse failure, table-existence failure) is written as a
single diagnostic and the command still returns `Ok` — the error is not the
command's terminal result. -/
theorem c7_setup_error_reported_ok (env : Env) (args : MatchArgs) (e : Str)
    (h : localExecPrecheck env args = .error e) :
    localExecMatch env args =
      (.ok, ⟨[], [strLit "Query command precheck failed, error " ++ e]⟩) := by
  simp only [localExecMatch, h]

/-- Witness for the amended C7 at the profile-less environment. -/
theorem c7_setup_error_reported_ok_witness :
    localExecPrecheck envC7 argsC7 =
      .error (strLit "Query command error: cannot find local configs") ∧
    localExecMatch envC7 argsC7 =
      (.ok, ⟨[], [strLit "Query command precheck failed, error " ++
        strLit "Query command error: cannot find local configs"]⟩) :=
  ⟨rfl, c7_setup_error_reported_ok envC7 argsC7
    (strLit "Query command error: cannot find local configs") rfl⟩

/-- C8: if the dispatch of one batch fails at the endpoint, the trace keeps
that batch's statement and gains exactly one diagnostic naming the table and
the error, the failure does not propagate, the batches before and after are
dispatched unchanged, and the load body still returns `Ok`. -/
theorem c8_dispatch_failure_isolated (exec : Str → Except Str QueryResult)
    (tf table : Str) (bs1 bs2 : List (List Str)) (b : List Str) (v e : Str)
    (hv : transformBatch b = some v) (he : exec (mkInsert tf v) = .error e) :
    runBatchList exec tf table (bs1 ++ b :: bs2) =
      ((runBatchList exec tf table bs1).1 ++
        mkInsert tf v :: (runBatchList exec tf table bs2).1,
       (runBatchList exec tf table bs1).2 ++
        diagMsg table e :: (runBatchList exec tf table bs2).2) ∧
    (∀ (env : Env) (args : MatchArgs) (n : Nat), args.load = none →
      args.schemaArg = none →
      parseUsize (args.skipHeadLines.getD (strLit "0")) = some n →
      (localExecBody env args).1 = .ok) := by
  constructor
  · have hb : batchStep exec tf table b = ([mkInsert tf v], [diagMsg table e]) := by
      simp only [batchStep, hv, he]
    rw [runBatchList_append]
    simp [runBatchList, hb]
  · intro env args n h1 h2 h3
    simp only [localExecBody, h1, h2, h3]
    by_cases hlen : env.stdinLines.length < n
    · rw [if_pos hlen]
    · rw [if_neg hlen]
      rfl

/-- Witness for C8: of three one-line batches, the middle one fails at the
endpoint; its statement and diagnostic are recorded and the other two
batches are still dispatched. -/
theorem c8_dispatch_failure_isolated_witness :
    transformBatch [strLit "2"] = some (strLit "(2)") ∧
    execC8 (mkInsert (strLit "t") (strLit "(2)")) = .error (strLit "boom") ∧
    runBatchList execC8 (strLit "t") (strLit "t")
        ([[strLit "1"]] ++ [strLit "2"] :: [[strLit "3"]]) =
      ((runBatchList execC8 (strLit "t") (strLit "t") [[strLit "1"]]).1 ++
        mkInsert (strLit "t") (strLit "(2)") ::
          (runBatchList execC8 (strLit "t") (strLit "t") [[strLit "3"]]).1,
       (runBatchList execC8 (strLit "t") (strLit "t") [[strLit "1"]]).2 ++
        diagMsg (strLit "t") (strLit "boom") ::
          (runBatchList execC8 (strLit "t") (strLit "t") [[strLit "3"]]).2) ∧
    (localExecBody envC8 argsC8).1 = .ok :=
  ⟨rfl, rfl,
   (c8_dispatch_failure_isolated execC8 (strLit "t") (strLit "t")
      [[strLit "1"]] [[strLit "3"]] [strLit "2"] (strLit "(2)") (strLit "boom")
      rfl rfl).1,
   (c8_dispatch_failure_isolated execC8 (strLit "t") (strLit "t")
      [[strLit "1"]] [[strLit "3"]] [strLit "2"] (strLit "(2)") (strLit "boom")
      rfl rfl).2 envC8 argsC8 0 rfl rfl rfl⟩

/-- C9: batching partitions exactly the post-skip suffix of the source, so
no line among the first `n` skipped lines occurs in any batch; and when
standard input ends before `n` lines are consumed the body returns `Ok`
with an empty trace — zero batches, no error. -/
theorem c9_header_skip (lines : List Str) (n : Nat) :
    (batches 100000 (lines.drop n)).flatten = lines.drop n ∧
    (∀ (env : Env) (args : MatchArgs) (s : Str), args.load = none →
      args.skipHeadLines = some s → parseUsize s = some n →
      env.stdinLines = lines → lines.length < n →
      localExecBody env args = (.ok, ⟨[], []⟩)) := by
  refine ⟨flatten_batches _ _, ?_⟩
  intro env args s h1 h2 h3 h4 h5
  simp only [localExecBody, h1, h2, Option.getD_some, h3, h4]
  rw [if_pos h5]

/-- Witness for C9: a one-line input with a skip count of two yields the
no-op success, and batching the (empty) suffix reproduces it. -/
theorem c9_header_skip_witness :
    (batches 100000 (([strLit "a"] : List Str).drop 2)).flatten =
      ([strLit "a"] : List Str).drop 2 ∧
    localExecBody envC9 argsC9 = (.ok, ⟨[], []⟩) :=
  ⟨(c9_header_skip [strLit "a"] 2).1,
   (c9_header_skip [strLit "a"] 2).2 envC9 argsC9 (strLit "2") rfl rfl rfl rfl
     (by decide)⟩

/-- C10: when `--skip-head-lines` is supplied with a value that does not
parse as a nonnegative integer, the body panics on the unwrapped parse
result — it returns neither success nor an error result, and dispatches
nothing. -/
theorem c10_bad_skip_panics (env : Env) (args : MatchArgs) (s : Str)
    (h1 : args.load = none) (h2 : args.skipHeadLines = some s)
    (h3 : parseUsize s = none) :
    localExecBody env args = (.panicked, ⟨[], []⟩) := by
  simp only [localExecBody, h1, h2, Option.getD_some, h3]

/-- Witness for C10 at the skip value `abc`. -/
theorem c10_bad_skip_panics_witness :
    parseUsize (strLit "abc") = none ∧
    localExecBody envC10 argsC10 = (.panicked, ⟨[], []⟩) :=
  ⟨rfl, c10_bad_skip_panics envC10 argsC10 (strLit "abc") rfl rfl rfl⟩
